import Mathlib

/-!
Verification of the `llm` repository (Rust) against its specification.

Shallow embedding: the Rust functions under `src/` are translated into
executable Lean definitions; components of the repository that are not
present under `src/` (the `llm-base` crate and the CLI `snapshot` module)
are modelled from the specification, and each such definition is marked
`Modelled from the spec:` in its doc comment.
-/

namespace Llm

/-! ## The deterministic test sampler (binaries/llm-test/src/main.rs)

`DeterministicSampler::sample` works on `&[f32]` logits.  The only
operations it performs on floats are `partial_cmp` and writing the
constant `f32::NEG_INFINITY`, so `f32` is embedded as either NaN or a
point of the totally ordered set `WithBot (WithTop ℚ)` (negative
infinity, finite values, positive infinity); `partial_cmp` returns
`none` exactly when one side is NaN.  Rust panics are modelled by
`Option`: a `none` result of `sample` is a panic.
-/

/-- Extended rationals: `⊥` plays the role of `f32::NEG_INFINITY` and
`⊤` of `f32::INFINITY`. -/
abbrev EFloat : Type := WithBot (WithTop ℚ)

/-- An `f32` value as used by the sampler: NaN, or a point of the
total order on non-NaN floats. -/
inductive F32 : Type where
  | nan : F32
  | num : EFloat → F32
deriving DecidableEq

/-- `f32::NEG_INFINITY`. -/
def F32.neg_infinity : F32 := .num ⊥

/-- `f32::partial_cmp`: `None` iff either operand is NaN, otherwise the
total order on extended reals. -/
def F32.partial_cmp : F32 → F32 → Option Ordering
  | .nan, _ => none
  | _, .nan => none
  | .num a, .num b => some (cmp a b)

/-- The non-NaN payload (junk value `⊥` at NaN, used only under
no-NaN hypotheses). -/
def F32.toE : F32 → EFloat
  | .nan => ⊥
  | .num a => a

/-- The loop `for &token in previous_tokens { logits[token as usize] = f32::NEG_INFINITY; }`.
Rust indexing panics when `token` is out of range; the panic is `none`. -/
def maskTokens : List Nat → List F32 → Option (List F32)
  | [], logits => some logits
  | t :: ts, logits =>
    if t < logits.length then maskTokens ts (logits.set t F32.neg_infinity)
    else none

/-- `.iter().enumerate()` starting at index `i`. -/
def enumerate (i : Nat) : List F32 → List (Nat × F32)
  | [] => []
  | x :: xs => (i, x) :: enumerate (i + 1) xs

/-- The fold of `Iterator::max_by` with comparator
`|(_, a), (_, b)| a.partial_cmp(b).unwrap()`: the accumulator is kept
exactly when it compares `Greater` to the next element (so ties keep the
later element, as in Rust), and a NaN comparison (`partial_cmp = None`)
is an `unwrap` panic, modelled by `none`. -/
def maxByGo (m : Nat × F32) : List (Nat × F32) → Option (Nat × F32)
  | [] => some m
  | x :: xs =>
    match F32.partial_cmp m.2 x.2 with
    | none => none
    | some .gt => maxByGo m xs
    | some _ => maxByGo x xs

/-- `DeterministicSampler::sample` from `binaries/llm-test/src/main.rs`.
The `rng` argument is accepted (over an arbitrary type, as the trait
object `&mut dyn RngCore` is never used) and ignored, exactly as in the
source.  `none` models a panic: either an out-of-range write into
`logits`, or `.max_by(...).unwrap()` on an empty iterator / a NaN
comparison. -/
def DeterministicSampler.sample {R : Type} (previous_tokens : List Nat)
    (logits : List F32) (_rng : R) : Option Nat :=
  match maskTokens previous_tokens logits with
  | none => none
  | some masked =>
    match enumerate 0 masked with
    | [] => none
    | x :: xs => (maxByGo x xs).map Prod.fst

theorem maskTokens_eq_some (ts : List Nat) (l : List F32)
    (h : ∀ t ∈ ts, t < l.length) :
    ∃ l', maskTokens ts l = some l' ∧ l'.length = l.length ∧
      ∀ x ∈ l', x = F32.neg_infinity ∨ x ∈ l := by
  induction ts generalizing l with
  | nil =>
    exact ⟨l, rfl, rfl, fun x hx => Or.inr hx⟩
  | cons t ts ih =>
    have ht : t < l.length := h t (List.mem_cons_self t ts)
    obtain ⟨l', h1, h2, h3⟩ :=
      ih (l.set t F32.neg_infinity)
        (fun u hu => by
          rw [List.length_set]
          exact h u (List.mem_cons_of_mem t hu))
    refine ⟨l', ?_, ?_, ?_⟩
    · simpa [maskTokens, ht] using h1
    · rw [h2, List.length_set]
    · intro x hx
      rcases h3 x hx with h4 | h4
      · exact Or.inl h4
      · rcases List.mem_or_eq_of_mem_set h4 with h5 | h5
        · exact Or.inr h5
        · exact Or.inl h5

theorem mem_enumerate (i : Nat) (l : List F32) (p : Nat × F32)
    (hp : p ∈ enumerate i l) :
    ∃ j, j < l.length ∧ p.1 = i + j ∧ p.2 = l.getD j F32.nan := by
  induction l generalizing i with
  | nil => simp [enumerate] at hp
  | cons x xs ih =>
    rw [enumerate, List.mem_cons] at hp
    rcases hp with hp | hp
    · exact ⟨0, by simp, by simp [hp], by simp [hp]⟩
    · obtain ⟨j, hj1, hj2, hj3⟩ := ih (i + 1) hp
      exact ⟨j + 1, by simpa using hj1, by omega, by simpa using hj3⟩

theorem enumerate_mem (i : Nat) (l : List F32) (j : Nat) (hj : j < l.length) :
    (i + j, l.getD j F32.nan) ∈ enumerate i l := by
  induction l generalizing i j with
  | nil => simp at hj
  | cons x xs ih =>
    rw [enumerate, List.mem_cons]
    match j with
    | 0 => exact Or.inl (by simp)
    | j + 1 =>
      refine Or.inr ?_
      have := ih (i + 1) j (by simpa using hj)
      simpa [Nat.add_assoc, Nat.add_comm 1 j] using this

theorem maxByGo_spec (xs : List (Nat × F32)) (m : Nat × F32)
    (hm : m.2 ≠ F32.nan) (hxs : ∀ x ∈ xs, x.2 ≠ F32.nan) :
    ∃ p, maxByGo m xs = some p ∧ (p = m ∨ p ∈ xs) ∧
      m.2.toE ≤ p.2.toE ∧ ∀ x ∈ xs, x.2.toE ≤ p.2.toE := by
  induction xs generalizing m with
  | nil =>
    exact ⟨m, rfl, Or.inl rfl, le_refl _, by simp⟩
  | cons x xs ih =>
    obtain ⟨a, ha⟩ : ∃ a, m.2 = F32.num a := by
      cases h : m.2 with
      | nan => exact absurd h hm
      | num a => exact ⟨a, rfl⟩
    obtain ⟨b, hb⟩ : ∃ b, x.2 = F32.num b := by
      cases h : x.2 with
      | nan => exact absurd h (hxs x (List.mem_cons_self x xs))
      | num b => exact ⟨b, rfl⟩
    have hcmp : F32.partial_cmp m.2 x.2 = some (cmp a b) := by
      rw [ha, hb]; rfl
    have hxs' : ∀ y ∈ xs, y.2 ≠ F32.nan :=
      fun y hy => hxs y (List.mem_cons_of_mem x hy)
    rcases hord : cmp a b with hlt | heq | hgt
    · -- a < b: the next element replaces the accumulator
      obtain ⟨p, h1, h2, h3, h4⟩ := ih x (by rw [hb]; intro h; cases h) hxs'
      refine ⟨p, ?_, ?_, ?_, ?_⟩
      · rw [maxByGo, hcmp, hord]; exact h1
      · rcases h2 with h2 | h2
        · exact Or.inr (h2 ▸ List.mem_cons_self x xs)
        · exact Or.inr (List.mem_cons_of_mem x h2)
      · have hab : a < b := (cmp_eq_lt_iff a b).mp hord
        have : m.2.toE ≤ x.2.toE := by
          rw [ha, hb]; exact le_of_lt hab
        exact le_trans this h3
      · intro y hy
        rcases List.mem_cons.mp hy with hy | hy
        · exact hy ▸ h3
        · exact h4 y hy
    · -- a = b: ties also replace the accumulator
      obtain ⟨p, h1, h2, h3, h4⟩ := ih x (by rw [hb]; intro h; cases h) hxs'
      refine ⟨p, ?_, ?_, ?_, ?_⟩
      · rw [maxByGo, hcmp, hord]; exact h1
      · rcases h2 with h2 | h2
        · exact Or.inr (h2 ▸ List.mem_cons_self x xs)
        · exact Or.inr (List.mem_cons_of_mem x h2)
      · have hab : a = b := (cmp_eq_eq_iff a b).mp hord
        have : m.2.toE ≤ x.2.toE := by rw [ha, hb, hab]
        exact le_trans this h3
      · intro y hy
        rcases List.mem_cons.mp hy with hy | hy
        · exact hy ▸ h3
        · exact h4 y hy
    · -- b < a: the accumulator is kept
      obtain ⟨p, h1, h2, h3, h4⟩ := ih m hm hxs'
      refine ⟨p, ?_, ?_, h3, ?_⟩
      · rw [maxByGo, hcmp, hord]; exact h1
      · rcases h2 with h2 | h2
        · exact Or.inl h2
        · exact Or.inr (List.mem_cons_of_mem x h2)
      · intro y hy
        rcases List.mem_cons.mp hy with hy | hy
        · have hba : b < a := (cmp_eq_gt_iff a b).mp hord
          have : y.2.toE ≤ m.2.toE := by
            rw [hy, ha, hb]; exact le_of_lt hba
          exact le_trans this h3
        · exact h4 y hy

theorem getD_mem (l : List F32) (j : Nat) (hj : j < l.length) :
    l.getD j F32.nan ∈ l := by
  induction l generalizing j with
  | nil => simp at hj
  | cons x xs ih =>
    match j with
    | 0 => exact List.mem_cons_self x xs
    | j + 1 =>
      exact List.mem_cons_of_mem x (ih j (by simpa using hj))

/-- Main lemma for the deterministic sampler: under the preconditions
(non-empty logits, no NaN, in-range history ids) `sample` succeeds and
returns an index of `logits` at which the masked logits attain their
maximum. -/
theorem sample_spec {R : Type} (previous_tokens : List Nat)
    (logits : List F32) (rng : R)
    (hne : logits ≠ [])
    (hnan : ∀ f ∈ logits, f ≠ F32.nan)
    (hlt : ∀ t ∈ previous_tokens, t < logits.length) :
    ∃ i masked, maskTokens previous_tokens logits = some masked ∧
      DeterministicSampler.sample previous_tokens logits rng = some i ∧
      i < logits.length ∧
      ∀ j, j < masked.length →
        (masked.getD j F32.nan).toE ≤ (masked.getD i F32.nan).toE := by
  obtain ⟨masked, hm1, hm2, hm3⟩ := maskTokens_eq_some previous_tokens logits hlt
  have hmnan : ∀ x ∈ masked, x ≠ F32.nan := by
    intro x hx
    rcases hm3 x hx with h | h
    · rw [h]; intro hc; cases hc
    · exact hnan x h
  have hmne : masked ≠ [] := by
    intro h
    apply hne
    rw [h] at hm2
    exact List.length_eq_zero.mp hm2.symm
  obtain ⟨y, ys, hys⟩ : ∃ y ys, enumerate 0 masked = y :: ys := by
    cases masked with
    | nil => exact absurd rfl hmne
    | cons a as => exact ⟨(0, a), enumerate 1 as, rfl⟩
  have hally : ∀ p ∈ y :: ys, p.2 ≠ F32.nan := by
    intro p hp
    rw [← hys] at hp
    obtain ⟨j, hj1, _, hj3⟩ := mem_enumerate 0 masked p hp
    rw [hj3]
    exact hmnan _ (getD_mem _ _ hj1)
  obtain ⟨p, hp1, hp2, hp3, hp4⟩ :=
    maxByGo_spec ys y (hally y (List.mem_cons_self y ys))
      (fun x hx => hally x (List.mem_cons_of_mem y hx))
  have hpmem : p ∈ enumerate 0 masked := by
    rw [hys]
    rcases hp2 with h | h
    · exact h ▸ List.mem_cons_self y ys
    · exact List.mem_cons_of_mem y h
  obtain ⟨j0, hj01, hj02, hj03⟩ := mem_enumerate 0 masked p hpmem
  refine ⟨p.1, masked, hm1, ?_, ?_, ?_⟩
  · simp only [DeterministicSampler.sample, hm1, hys, hp1, Option.map_some']
  · rw [← hm2, hj02]; simpa using hj01
  · intro j hj
    have hmem : (0 + j, masked.getD j F32.nan) ∈ enumerate 0 masked :=
      enumerate_mem 0 masked j hj
    rw [hys] at hmem
    have hle : (masked.getD j F32.nan).toE ≤ p.2.toE := by
      rcases List.mem_cons.mp hmem with h | h
      · have h2 : masked.getD j F32.nan = y.2 := by
          have := congrArg Prod.snd h
          simpa using this
        rw [h2]
        exact hp3
      · exact hp4 _ h
    rw [hj03] at hle
    rw [hj02]
    simpa using hle

/-- C2: for every `previous_tokens`, `logits` and rng, provided `logits`
is non-empty, contains no NaN, and every id in `previous_tokens` is less
than `logits.length`, `DeterministicSampler::sample` returns an index of
`logits` at which the logits — after replacing `logits[id]` by negative
infinity for every id occurring in `previous_tokens` — attain their
maximum; and the returned id does not depend on the rng. -/
theorem C2_deterministic_sampler_sample {R R' : Type}
    (previous_tokens : List Nat) (logits : List F32) (rng : R) (rng2 : R')
    (hne : logits ≠ [])
    (hnan : ∀ f ∈ logits, f ≠ F32.nan)
    (hlt : ∀ t ∈ previous_tokens, t < logits.length) :
    (∃ i masked, maskTokens previous_tokens logits = some masked ∧
      DeterministicSampler.sample previous_tokens logits rng = some i ∧
      i < logits.length ∧
      ∀ j, j < masked.length →
        (masked.getD j F32.nan).toE ≤ (masked.getD i F32.nan).toE) ∧
    DeterministicSampler.sample previous_tokens logits rng =
      DeterministicSampler.sample previous_tokens logits rng2 := by
  refine ⟨?_, rfl⟩
  obtain ⟨i, masked, h1, h2, h3, h4⟩ :=
    sample_spec previous_tokens logits rng hne hnan hlt
  exact ⟨i, masked, h1, h2, h3, h4⟩

/-- Witness for C2 at a concrete input. -/
theorem C2_deterministic_sampler_sample_witness :
    (∃ i masked, maskTokens [2] [F32.num 5, F32.num 7, F32.num 9] = some masked ∧
      DeterministicSampler.sample [2] [F32.num 5, F32.num 7, F32.num 9] true = some i ∧
      i < [F32.num 5, F32.num 7, F32.num 9].length ∧
      ∀ j, j < masked.length →
        (masked.getD j F32.nan).toE ≤ (masked.getD i F32.nan).toE) ∧
    DeterministicSampler.sample [2] [F32.num 5, F32.num 7, F32.num 9] true =
      DeterministicSampler.sample [2] [F32.num 5, F32.num 7, F32.num 9] (0 : Nat) :=
  C2_deterministic_sampler_sample [2] [F32.num 5, F32.num 7, F32.num 9] true (0 : Nat)
    (by decide) (by decide) (by decide)

/-- C10: `DeterministicSampler::sample` panics on an empty logits slice
and on an out-of-range history id (the `none` results below), while
under the stated precondition it always returns a valid index less than
`logits.length`. -/
theorem C10_deterministic_sampler_totality :
    DeterministicSampler.sample [] ([] : List F32) () = none ∧
    DeterministicSampler.sample [1] [F32.num 0] () = none ∧
    ∀ (R : Type) (previous_tokens : List Nat) (logits : List F32) (rng : R),
      logits ≠ [] →
      (∀ f ∈ logits, f ≠ F32.nan) →
      (∀ t ∈ previous_tokens, t < logits.length) →
      ∃ i, DeterministicSampler.sample previous_tokens logits rng = some i ∧
        i < logits.length := by
  refine ⟨rfl, rfl, ?_⟩
  intro R previous_tokens logits rng hne hnan hlt
  obtain ⟨i, masked, _, h2, h3, _⟩ :=
    sample_spec previous_tokens logits rng hne hnan hlt
  exact ⟨i, h2, h3⟩

/-- Witness for C10 at a concrete input. -/
theorem C10_deterministic_sampler_totality_witness :
    ∃ i, DeterministicSampler.sample [0] [F32.num 3, F32.num 4] () = some i ∧
      i < [F32.num 3, F32.num 4].length :=
  C10_deterministic_sampler_totality.2.2 Unit [0] [F32.num 3, F32.num 4] ()
    (by decide) (by decide) (by decide)

example : DeterministicSampler.sample [0] ([] : List F32) () = none := by rfl
example : DeterministicSampler.sample [] ([] : List F32) () = none := by rfl
example :
    DeterministicSampler.sample [] [F32.num 1, F32.num 2, F32.num 0] () = some 1 := by
  rfl
example :
    DeterministicSampler.sample [1] [F32.num 1, F32.num 2, F32.num 0] () = some 0 := by
  rfl

/-! ## Model architectures (crates/llm/src/lib.rs)

All seven architecture features are considered enabled, matching
`ModelArchitecture::ALL` with the full feature set.  Strings are
embedded as lists of Unicode code points; `str::to_lowercase` and
`char::is_alphanumeric` are modelled on the ASCII range (all names and
display strings involved are ASCII). -/

/-- The `ModelArchitecture` enum. -/
inductive ModelArchitecture : Type where
  | bloom | gpt2 | gptj | gptneox | llama | mpt | falcon
deriving DecidableEq

/-- `ModelArchitecture::ALL`. -/
def ModelArchitecture.ALL : List ModelArchitecture :=
  [.bloom, .gpt2, .gptj, .gptneox, .llama, .mpt, .falcon]

/-- Code points of a string literal. -/
def codes (s : String) : List Nat := s.data.map Char.toNat

/-- `str::to_lowercase`, per character (ASCII model). -/
def rust_to_lowercase (c : Nat) : Nat :=
  if 65 ≤ c ∧ c ≤ 90 then c + 32 else c

/-- `char::is_alphanumeric` (ASCII model). -/
def rust_is_alphanumeric (c : Nat) : Bool :=
  decide (48 ≤ c ∧ c ≤ 57) || decide (65 ≤ c ∧ c ≤ 90) ||
    decide (97 ≤ c ∧ c ≤ 122)

/-- `s.to_lowercase().chars().filter(|c| c.is_alphanumeric()).collect()`
from `impl FromStr for ModelArchitecture`. -/
def normalize (s : List Nat) : List Nat :=
  (s.map rust_to_lowercase).filter rust_is_alphanumeric

/-- `impl FromStr for ModelArchitecture`: match the normalized string
against the seven supported names; otherwise
`UnsupportedModelArchitecture` carrying the original input. -/
def ModelArchitecture.from_str (s : List Nat) :
    Except (List Nat) ModelArchitecture :=
  if normalize s = codes "bloom" then .ok .bloom
  else if normalize s = codes "gpt2" then .ok .gpt2
  else if normalize s = codes "gptj" then .ok .gptj
  else if normalize s = codes "gptneox" then .ok .gptneox
  else if normalize s = codes "llama" then .ok .llama
  else if normalize s = codes "mpt" then .ok .mpt
  else if normalize s = codes "falcon" then .ok .falcon
  else .error s

/-- `impl Display for ModelArchitecture`. -/
def ModelArchitecture.display : ModelArchitecture → List Nat
  | .bloom => codes "BLOOM"
  | .gpt2 => codes "GPT-2"
  | .gptj => codes "GPT-J"
  | .gptneox => codes "GPT-NeoX"
  | .llama => codes "LLaMA"
  | .mpt => codes "MPT"
  | .falcon => codes "Falcon"

/-- The architecture a parse produced, forgetting the error message. -/
def resultArch : Except (List Nat) ModelArchitecture → Option ModelArchitecture
  | .ok a => some a
  | .error _ => none

theorem rust_to_lowercase_idem (c : Nat) :
    rust_to_lowercase (rust_to_lowercase c) = rust_to_lowercase c := by
  simp only [rust_to_lowercase]
  split_ifs <;> omega

theorem normalize_idem (s : List Nat) : normalize (normalize s) = normalize s := by
  induction s with
  | nil => rfl
  | cons c s ih =>
    by_cases h : rust_is_alphanumeric (rust_to_lowercase c) = true
    · simp only [normalize, List.map_cons, List.filter_cons, h, if_true] at ih ⊢
      simp only [rust_to_lowercase_idem, h, if_true]
      exact congrArg _ ih
    · simp only [normalize, List.map_cons, List.filter_cons, h, if_false] at ih ⊢
      exact ih

/-- C1 context: `load_dynamic` from `crates/llm/src/lib.rs`.  The
architecture-specific loader `load::<M>` lives in `llm-base` (not under
`src/`) and is abstracted as a parameter; `load_dynamic` itself only
dispatches on the optional architecture. -/
inductive LoadError : Type where
  | missingModelArchitecture (path : List Nat)
  | other (message : List Nat)
deriving DecidableEq

/-- `load_dynamic(architecture, path, ...)`: despite its documentation
("If no architecture is specified, it will try to infer it from the
model's metadata"), the body runs
`architecture.ok_or_else(|| LoadError::MissingModelArchitecture { path })?`
and so fails unconditionally when `architecture` is `None`. -/
def load_dynamic {Model : Type}
    (load : ModelArchitecture → Except LoadError Model)
    (architecture : Option ModelArchitecture) (path : List Nat) :
    Except LoadError Model :=
  match architecture with
  | none => .error (.missingModelArchitecture path)
  | some arch => load arch

/-- C1: with `architecture = None`, `load_dynamic` never sniffs the
container metadata: it fails with `MissingModelArchitecture` for every
loader and path, contradicting both its own doc comment and the spec
sentence about selection "by sniffing container metadata". -/
theorem C1_load_dynamic_none_always_fails {Model : Type}
    (load : ModelArchitecture → Except LoadError Model) (path : List Nat) :
    load_dynamic load none path =
      .error (.missingModelArchitecture path) := rfl

/-- C9: display/parse round-trip for every architecture in `ALL`;
parsing factors through `normalize` (lowercase, keep alphanumerics); a
string whose normalization matches no supported name parses to
`UnsupportedModelArchitecture` carrying the input. -/
theorem C9_model_architecture_from_str_round_trip :
    (∀ a ∈ ModelArchitecture.ALL,
      ModelArchitecture.from_str (ModelArchitecture.display a) = .ok a) ∧
    (∀ s : List Nat,
      resultArch (ModelArchitecture.from_str s) =
        resultArch (ModelArchitecture.from_str (normalize s))) ∧
    (∀ s : List Nat,
      normalize s ≠ codes "bloom" → normalize s ≠ codes "gpt2" →
      normalize s ≠ codes "gptj" → normalize s ≠ codes "gptneox" →
      normalize s ≠ codes "llama" → normalize s ≠ codes "mpt" →
      normalize s ≠ codes "falcon" →
      ModelArchitecture.from_str s = .error s) := by
  refine ⟨?_, ?_, ?_⟩
  · intro a ha
    fin_cases ha <;> rfl
  · intro s
    simp only [ModelArchitecture.from_str, normalize_idem]
    split_ifs <;> rfl
  · intro s h1 h2 h3 h4 h5 h6 h7
    simp only [ModelArchitecture.from_str, h1, h2, h3, h4, h5, h6, h7,
      if_false]

/-- Witness for C9 at concrete inputs: `"GPT-NeoX"` and `"gptneox"`
parse to the same architecture, and `"???"` is unsupported. -/
theorem C9_model_architecture_from_str_round_trip_witness :
    ModelArchitecture.from_str (ModelArchitecture.display .gptneox) =
      .ok .gptneox ∧
    resultArch (ModelArchitecture.from_str (codes "GPT-NeoX")) =
      resultArch (ModelArchitecture.from_str (normalize (codes "GPT-NeoX"))) ∧
    ModelArchitecture.from_str (codes "???") = .error (codes "???") :=
  ⟨C9_model_architecture_from_str_round_trip.1 .gptneox (by decide),
   C9_model_architecture_from_str_round_trip.2.1 (codes "GPT-NeoX"),
   C9_model_architecture_from_str_round_trip.2.2 (codes "???")
     (by decide) (by decide) (by decide) (by decide) (by decide) (by decide)
     (by decide)⟩

example : normalize (codes "GPT-NeoX") = codes "gptneox" := by decide
example : resultArch (ModelArchitecture.from_str (codes "GPT-NeoX")) =
    some .gptneox := by decide

/-! ## The inference session state machine

The `InferenceSession` implementation lives in the `llm-base` crate,
which is not under `src/` (only its callers and tests are); the
definitions below are modelled from §4.5 and §7 of the spec.  Token ids
are `Nat`, the callback error type `E` is a parameter (`Infallible`
becomes `Empty`), and prompt batching is taken at granularity one
token. -/

/-- Modelled from the spec: `InferenceError` with variants ContextFull,
TokenizationFailed, UserCallback(e) and EndOfText (§7). -/
inductive InferenceError (E : Type) : Type where
  | contextFull
  | tokenizationFailed
  | userCallback (e : E)
  | endOfText
deriving DecidableEq

/-- Modelled from the spec: the streaming response events of §4.5. -/
inductive InferenceResponse : Type where
  | promptToken (t : Nat)
  | inferredToken (t : Nat)
  | eotToken
deriving DecidableEq

/-- Modelled from the spec: per-event callback outcome (`Continue` or
`Halt`). -/
inductive InferenceFeedback : Type where
  | cont
  | halt
deriving DecidableEq

/-- Modelled from the spec: the mutable session state that the claims
mention — current position and token history; the KV cache itself is
abstracted by `position` (its occupancy). -/
structure SessionState : Type where
  position : Nat
  history : List Nat
deriving DecidableEq

/-- A fresh `Created` session. -/
def freshSession : SessionState := ⟨0, []⟩

/-- The always-continue infallible callback, as used by the smoke test
and by `llm-cli`'s `infer` (`Ok(InferenceFeedback::Continue)`). -/
def cbContinue : InferenceResponse → Except Empty InferenceFeedback :=
  fun _ => .ok .cont

/-- Modelled from the spec: `feedPrompt` (§4.5) — each token advances
the position by one, emits a `PromptToken` event through the callback
(whose `Halt` aborts the remaining tokens, and whose error propagates
as `UserCallback`), and a token that would advance the position beyond
the context window fails with `ContextFull`, the previously applied
tokens remaining committed. -/
def feed_prompt {E : Type} (ctx : Nat)
    (cb : InferenceResponse → Except E InferenceFeedback) :
    List Nat → SessionState →
      List InferenceResponse × Except (InferenceError E) SessionState
  | [], s => ([], .ok s)
  | t :: ts, s =>
    if s.position < ctx then
      let s' : SessionState := ⟨s.position + 1, s.history ++ [t]⟩
      match cb (.promptToken t) with
      | .error e => ([.promptToken t], .error (.userCallback e))
      | .ok .halt => ([.promptToken t], .ok s')
      | .ok .cont =>
        let rest := feed_prompt ctx cb ts s'
        (.promptToken t :: rest.1, rest.2)
    else ([], .error .contextFull)

/-- `maximum_token_count` check: `true` when the number of produced
tokens has reached the configured limit. -/
def reachedLimit (produced : Nat) : Option Nat → Bool
  | some m => decide (produced ≥ m)
  | none => false

/-- Modelled from the spec: the generation loop of `infer` (§4.5) —
repeatedly: stop successfully when `maximumTokenCount` is reached; fail
with `ContextFull` when the KV cache is exhausted; sample the next
token; if it is the model's end-of-text id, emit `EotToken` and stop
successfully (not an error); otherwise advance the session, emit an
`InferredToken` event and consult the callback (`Halt` stops
successfully, an error propagates as `UserCallback`).  The sampler is
abstracted as a deterministic oracle of the history and position, and
`fuel` bounds the recursion (`infer` passes `ctx + 1`, enough fuel that
exhaustion is only ever reported as `ContextFull`). -/
def infer_loop {E : Type} (ctx eot : Nat)
    (sampler : List Nat → Nat → Nat)
    (cb : InferenceResponse → Except E InferenceFeedback) :
    Nat → Nat → Option Nat → SessionState →
      List InferenceResponse × Except (InferenceError E) SessionState
  | 0, _, _, _ => ([], .error .contextFull)
  | fuel + 1, produced, maxTok, s =>
    if reachedLimit produced maxTok then ([], .ok s)
    else if s.position < ctx then
      let t := sampler s.history s.position
      if t = eot then ([.eotToken], .ok s)
      else
        let s' : SessionState := ⟨s.position + 1, s.history ++ [t]⟩
        match cb (.inferredToken t) with
        | .error e => ([.inferredToken t], .error (.userCallback e))
        | .ok .halt => ([.inferredToken t], .ok s')
        | .ok .cont =>
          let rest := infer_loop ctx eot sampler cb fuel (produced + 1) maxTok s'
          (.inferredToken t :: rest.1, rest.2)
    else ([], .error .contextFull)

/-- Modelled from the spec: `infer` (§4.5) — tokenize the prompt
(failure is `TokenizationFailed`, the tokenizer being abstracted by an
`Option` argument), feed it, then run the generation loop. -/
def infer {E : Type} (ctx eot : Nat)
    (sampler : List Nat → Nat → Nat)
    (cb : InferenceResponse → Except E InferenceFeedback)
    (maxTok : Option Nat) (tokenized_prompt : Option (List Nat))
    (s : SessionState) :
    List InferenceResponse × Except (InferenceError E) SessionState :=
  match tokenized_prompt with
  | none => ([], .error .tokenizationFailed)
  | some ts =>
    match feed_prompt ctx cb ts s with
    | (evs, .error e) => (evs, .error e)
    | (evs, .ok s') =>
      let gen := infer_loop ctx eot sampler cb (ctx + 1) 0 maxTok s'
      (evs ++ gen.1, gen.2)

example :
    infer 4 0 (fun _ _ => 7) cbContinue (some 2) (some [5]) freshSession =
      ([.promptToken 5, .inferredToken 7, .inferredToken 7],
        .ok ⟨3, [5, 7, 7]⟩) := by rfl
example :
    infer 4 0 (fun _ _ => 0) cbContinue (some 2) (some [5]) freshSession =
      ([.promptToken 5, .eotToken], .ok ⟨1, [5]⟩) := by rfl
example :
    (infer 1 0 (fun _ _ => 7) cbContinue none (some [5]) freshSession).2 =
      .error .contextFull := by rfl

theorem feed_prompt_ok {E : Type} (ctx : Nat)
    (cb : InferenceResponse → Except E InferenceFeedback)
    (hcb : ∀ r, cb r = .ok .cont) (ts : List Nat) (s : SessionState)
    (h : s.position + ts.length ≤ ctx) :
    feed_prompt ctx cb ts s =
      (ts.map InferenceResponse.promptToken,
        .ok ⟨s.position + ts.length, s.history ++ ts⟩) := by
  induction ts generalizing s with
  | nil => simp [feed_prompt]
  | cons t ts ih =>
    have hpos : s.position < ctx := by
      simp only [List.length_cons] at h; omega
    have := ih ⟨s.position + 1, s.history ++ [t]⟩
      (by simp only [List.length_cons] at h ⊢; omega)
    simp only [feed_prompt, hpos, if_true, hcb, this, List.map_cons]
    refine congrArg _ (congrArg _ ?_)
    simp [SessionState.mk.injEq]
    omega

theorem feed_prompt_full {E : Type} (ctx : Nat)
    (cb : InferenceResponse → Except E InferenceFeedback)
    (hcb : ∀ r, cb r = .ok .cont) (ts : List Nat) (s : SessionState)
    (hle : s.position ≤ ctx) (h : ctx < s.position + ts.length) :
    (feed_prompt ctx cb ts s).2 = .error .contextFull := by
  induction ts generalizing s with
  | nil => simp only [List.length_nil, Nat.add_zero] at h; omega
  | cons t ts ih =>
    by_cases hpos : s.position < ctx
    · have := ih ⟨s.position + 1, s.history ++ [t]⟩ (by simpa using hpos)
        (by simp only [List.length_cons] at h ⊢; omega)
      simp [feed_prompt, hpos, hcb, this]
    · simp [feed_prompt, hpos]

theorem infer_loop_ok {E : Type} (ctx eot : Nat)
    (sampler : List Nat → Nat → Nat)
    (cb : InferenceResponse → Except E InferenceFeedback)
    (hcb : ∀ r, cb r = .ok .cont)
    (hs : ∀ h p, sampler h p ≠ eot) :
    ∀ (k fuel produced : Nat) (s : SessionState),
      s.position + k ≤ ctx → k < fuel →
      ∃ evs s',
        infer_loop ctx eot sampler cb fuel produced (some (produced + k)) s =
          (evs, .ok s') ∧ s'.position = s.position + k := by
  intro k
  induction k with
  | zero =>
    intro fuel produced s _ hfuel
    obtain ⟨f, rfl⟩ : ∃ f, fuel = f + 1 := ⟨fuel - 1, by omega⟩
    refine ⟨[], s, ?_, by omega⟩
    simp [infer_loop, reachedLimit]
  | succ k ih =>
    intro fuel produced s hctx hfuel
    obtain ⟨f, rfl⟩ : ∃ f, fuel = f + 1 := ⟨fuel - 1, by omega⟩
    have hlim : reachedLimit produced (some (produced + (k + 1))) = false := by
      simp [reachedLimit]
    have hpos : s.position < ctx := by omega
    have hneq : sampler s.history s.position ≠ eot := hs _ _
    obtain ⟨evs, s', h1, h2⟩ :=
      ih f (produced + 1) ⟨s.position + 1, s.history ++ [sampler s.history s.position]⟩
        (by simp; omega) (by omega)
    have harith : produced + 1 + k = produced + (k + 1) := by omega
    rw [harith] at h1
    refine ⟨.inferredToken (sampler s.history s.position) :: evs, s', ?_, ?_⟩
    · simp only [infer_loop, hlim, Bool.false_eq_true, if_false, hpos, if_true,
        hneq, hcb, h1]
    · simp only [h2]; omega

theorem feed_prompt_error {E : Type} (ctx : Nat)
    (cb : InferenceResponse → Except E InferenceFeedback)
    (ts : List Nat) (s : SessionState) (e : InferenceError E)
    (h : (feed_prompt ctx cb ts s).2 = .error e) :
    e = .contextFull ∨ ∃ e', e = .userCallback e' := by
  induction ts generalizing s with
  | nil => simp [feed_prompt] at h
  | cons t ts ih =>
    by_cases hpos : s.position < ctx
    · simp only [feed_prompt, hpos, if_true] at h
      rcases hcb : cb (.promptToken t) with e' | fb
      · rw [hcb] at h
        simp at h
        exact Or.inr ⟨e', h.symm⟩
      · rcases fb with _ | _
        · rw [hcb] at h
          simp at h
          exact ih _ h
        · rw [hcb] at h
          simp at h
    · simp only [feed_prompt, hpos, if_false] at h
      simp at h
      exact Or.inl h.symm

theorem infer_loop_error {E : Type} (ctx eot : Nat)
    (sampler : List Nat → Nat → Nat)
    (cb : InferenceResponse → Except E InferenceFeedback) :
    ∀ (fuel produced : Nat) (maxTok : Option Nat) (s : SessionState)
      (e : InferenceError E),
      (infer_loop ctx eot sampler cb fuel produced maxTok s).2 = .error e →
      e = .contextFull ∨ ∃ e', e = .userCallback e' := by
  intro fuel
  induction fuel with
  | zero =>
    intro produced maxTok s e h
    simp only [infer_loop] at h
    simp at h
    exact Or.inl h.symm
  | succ f ih =>
    intro produced maxTok s e h
    by_cases hlim : reachedLimit produced maxTok
    · simp [infer_loop, hlim] at h
    · by_cases hpos : s.position < ctx
      · by_cases heot : sampler s.history s.position = eot
        · simp [infer_loop, hlim, hpos, heot] at h
        · simp only [infer_loop, hlim, Bool.false_eq_true, if_false, hpos,
            if_true, heot] at h
          rcases hcb : cb (.inferredToken (sampler s.history s.position))
            with e' | fb
          · rw [hcb] at h
            simp at h
            exact Or.inr ⟨e', h.symm⟩
          · rcases fb with _ | _
            · rw [hcb] at h
              simp at h
              exact ih _ _ _ _ h
            · rw [hcb] at h
              simp at h
      · simp only [infer_loop, hlim, Bool.false_eq_true, if_false, hpos] at h
        simp at h
        exact Or.inl h.symm

theorem infer_error {E : Type} (ctx eot : Nat)
    (sampler : List Nat → Nat → Nat)
    (cb : InferenceResponse → Except E InferenceFeedback)
    (maxTok : Option Nat) (prompt : Option (List Nat)) (s : SessionState)
    (e : InferenceError E)
    (h : (infer ctx eot sampler cb maxTok prompt s).2 = .error e) :
    e = .contextFull ∨ e = .tokenizationFailed ∨ ∃ e', e = .userCallback e' := by
  match prompt with
  | none =>
    simp only [infer] at h
    simp at h
    exact Or.inr (Or.inl h.symm)
  | some ts =>
    simp only [infer] at h
    rcases hfeed : feed_prompt ctx cb ts s with ⟨evs, r⟩
    rcases r with e0 | s'
    · rw [hfeed] at h
      simp at h
      rcases feed_prompt_error ctx cb ts s e0 (by rw [hfeed]) with h1 | ⟨e', h1⟩
      · exact Or.inl (h ▸ h1)
      · exact Or.inr (Or.inr ⟨e', h ▸ h1⟩)
    · rw [hfeed] at h
      simp at h
      rcases infer_loop_error ctx eot sampler cb (ctx + 1) 0 maxTok s' e h
        with h1 | h1
      · exact Or.inl h1
      · exact Or.inr (Or.inr h1)

/-- C3: from a fresh session, N successful token productions leave the
position at exactly N with N ≤ contextSize; a prompt whose length
exceeds the context window fails with `ContextFull`; an attempted
production at a full session fails with `ContextFull`; and successful
generation of m tokens likewise leaves the position at m.  `cb` is any
callback that always continues. -/
theorem C3_session_position_invariant {E : Type} (ctx : Nat)
    (cb : InferenceResponse → Except E InferenceFeedback)
    (hcb : ∀ r, cb r = .ok .cont) (ts : List Nat) :
    (ts.length ≤ ctx →
      feed_prompt ctx cb ts freshSession =
        (ts.map InferenceResponse.promptToken, .ok ⟨ts.length, ts⟩)) ∧
    (ctx < ts.length →
      (feed_prompt ctx cb ts freshSession).2 = .error .contextFull) ∧
    (∀ (eot : Nat) (sampler : List Nat → Nat → Nat) (fuel produced : Nat)
        (maxTok : Option Nat) (s : SessionState),
      reachedLimit produced maxTok = false → ctx ≤ s.position →
      (infer_loop ctx eot sampler cb (fuel + 1) produced maxTok s).2 =
        .error .contextFull) ∧
    (∀ (eot : Nat) (sampler : List Nat → Nat → Nat) (m : Nat),
      (∀ h p, sampler h p ≠ eot) → m ≤ ctx →
      ∃ evs s',
        infer_loop ctx eot sampler cb (ctx + 1) 0 (some m) freshSession =
          (evs, .ok s') ∧ s'.position = m) := by
  refine ⟨?_, ?_, ?_, ?_⟩
  · intro h
    have := feed_prompt_ok ctx cb hcb ts freshSession (by simpa [freshSession])
    simpa [freshSession] using this
  · intro h
    exact feed_prompt_full ctx cb hcb ts freshSession (by simp [freshSession])
      (by simpa [freshSession])
  · intro eot sampler fuel produced maxTok s hlim hfull
    have hpos : ¬ s.position < ctx := by omega
    simp [infer_loop, hlim, hpos]
  · intro eot sampler m hs hm
    obtain ⟨evs, s', h1, h2⟩ :=
      infer_loop_ok ctx eot sampler cb hcb hs m (ctx + 1) 0 freshSession
        (by simpa [freshSession]) (by omega)
    exact ⟨evs, s', by simpa using h1, by simpa [freshSession] using h2⟩

/-- Witness for C3 at a concrete input: context size 3, prompt of two
tokens (position ends at 2 ≤ 3), a four-token prompt overflows, a full
session refuses to produce, and generating 2 tokens ends at position 2. -/
theorem C3_session_position_invariant_witness :
    (feed_prompt 3 cbContinue [5, 6] freshSession =
      ([.promptToken 5, .promptToken 6], .ok ⟨2, [5, 6]⟩)) ∧
    ((feed_prompt 3 cbContinue [5, 6, 7, 8] freshSession).2 =
      .error .contextFull) ∧
    ((infer_loop 3 0 (fun _ _ => 1) cbContinue 1 0 none ⟨3, [5, 6, 7]⟩).2 =
      .error .contextFull) ∧
    (∃ evs s',
      infer_loop 3 0 (fun _ _ => 1) cbContinue 4 0 (some 2) freshSession =
        (evs, .ok s') ∧ s'.position = 2) := by
  have h := C3_session_position_invariant 3 cbContinue (fun _ => rfl) [5, 6]
  have h' := C3_session_position_invariant 3 cbContinue (fun _ => rfl)
    [5, 6, 7, 8]
  refine ⟨?_, h'.2.1 (by decide), ?_, ?_⟩
  · have := h.1 (by decide)
    simpa using this
  · exact h.2.2.1 0 (fun _ _ => 1) 0 0 none ⟨3, [5, 6, 7]⟩ (by decide)
      (by decide)
  · exact h.2.2.2 0 (fun _ _ => 1) 2 (by intro a b; simp) (by decide)

/-- C4: with an infallible callback (`E = Empty`), `infer` never fails
with `EndOfText` or `UserCallback` — every error is `ContextFull` or
`TokenizationFailed` — and sampling the end-of-text id terminates the
generation loop by emitting an `EotToken` event and returning
successfully. -/
theorem C4_infer_infallible_error_cases (ctx eot : Nat)
    (sampler : List Nat → Nat → Nat)
    (cb : InferenceResponse → Except Empty InferenceFeedback)
    (maxTok : Option Nat) (prompt : Option (List Nat)) (s : SessionState) :
    (∀ e, (infer ctx eot sampler cb maxTok prompt s).2 = .error e →
      e = .contextFull ∨ e = .tokenizationFailed) ∧
    (∀ (s' : SessionState) (fuel produced : Nat),
      reachedLimit produced maxTok = false → s'.position < ctx →
      sampler s'.history s'.position = eot →
      infer_loop ctx eot sampler cb (fuel + 1) produced maxTok s' =
        ([.eotToken], .ok s')) := by
  constructor
  · intro e h
    rcases infer_error ctx eot sampler cb maxTok prompt s e h
      with h1 | h1 | ⟨e', _⟩
    · exact Or.inl h1
    · exact Or.inr h1
    · exact e'.elim
  · intro s' fuel produced hlim hpos heot
    simp [infer_loop, hlim, hpos, heot]

/-- Witness for C4 at concrete inputs: a failed tokenization yields
exactly `TokenizationFailed`, and a constant-EOT sampler ends the loop
with an `EotToken` event and success. -/
theorem C4_infer_infallible_error_cases_witness :
    (InferenceError.tokenizationFailed (E := Empty) = .contextFull ∨
      InferenceError.tokenizationFailed (E := Empty) = .tokenizationFailed) ∧
    infer_loop 2 9 (fun _ _ => 9) cbContinue 1 0 none freshSession =
      ([.eotToken], .ok freshSession) := by
  have h := C4_infer_infallible_error_cases 2 9 (fun _ _ => 9) cbContinue
    none none freshSession
  exact ⟨h.1 .tokenizationFailed rfl,
    h.2 freshSession 0 0 (by decide) (by decide) rfl⟩

/-- C5: on a fresh session, an empty prompt with
`maximum_token_count = Some 1` (always-continue infallible callback, a
positive context window, first sampled token not end-of-text) emits
exactly one `InferredToken` event and returns successfully. -/
theorem C5_empty_prompt_single_token (ctx eot : Nat)
    (sampler : List Nat → Nat → Nat)
    (h1 : 0 < ctx) (h2 : sampler [] 0 ≠ eot) :
    infer ctx eot sampler cbContinue (some 1) (some []) freshSession =
      ([.inferredToken (sampler [] 0)], .ok ⟨1, [sampler [] 0]⟩) := by
  obtain ⟨f, rfl⟩ : ∃ f, ctx = f + 1 := ⟨ctx - 1, by omega⟩
  have hpos : freshSession.position < f + 1 := by simp [freshSession]
  simp only [infer, feed_prompt, infer_loop, reachedLimit, freshSession]
  norm_num
  simp [h2, cbContinue, infer_loop, reachedLimit]

/-- Witness for C5 at a concrete input: context 2048 (the default),
end-of-text id 0, a sampler that yields token 42. -/
theorem C5_empty_prompt_single_token_witness :
    infer 2048 0 (fun _ _ => 42) cbContinue (some 1) (some []) freshSession =
      ([.inferredToken 42], .ok ⟨1, [42]⟩) :=
  C5_empty_prompt_single_token 2048 0 (fun _ _ => 42) (by decide) (by decide)

/-! ## The hyperparameter codec

`Hyperparameters::{write_ggml, read_ggml}` live in `llm-base` and the
per-architecture model crates, which are not under `src/`; only the
round-trip test `can_roundtrip_hyperparameters` in
`binaries/llm-test/src/main.rs` is.  The codec is modelled from the
spec: the hyperparameter block is a sequence of fixed
architecture-specific scalar fields (vocab size, embedding width,
layer/head counts, context length, file-type marker), each written as a
little-endian 32-bit integer. -/

/-- Modelled from the spec: the architecture-specific scalar
configuration of §3. -/
structure Hyperparameters : Type where
  n_vocab : Nat
  n_embd : Nat
  n_head : Nat
  n_layer : Nat
  n_ctx : Nat
  file_type : Nat
deriving DecidableEq

/-- Little-endian bytes of a `u32`. -/
def encodeU32 (n : Nat) : List Nat :=
  [n % 256, n / 256 % 256, n / 65536 % 256, n / 16777216 % 256]

/-- Read one little-endian `u32`, returning the value and the remaining
bytes; `none` is a truncated stream. -/
def decodeU32 : List Nat → Option (Nat × List Nat)
  | b0 :: b1 :: b2 :: b3 :: rest =>
    some (b0 + 256 * b1 + 65536 * b2 + 16777216 * b3, rest)
  | _ => none

/-- Modelled from the spec: `write_ggml` emits the six scalar fields in
order as little-endian `u32`s. -/
def Hyperparameters.write_ggml (h : Hyperparameters) : List Nat :=
  encodeU32 h.n_vocab ++ (encodeU32 h.n_embd ++ (encodeU32 h.n_head ++
    (encodeU32 h.n_layer ++ (encodeU32 h.n_ctx ++ encodeU32 h.file_type))))

/-- Modelled from the spec: `read_ggml` parses the six scalar fields in
the same order. -/
def Hyperparameters.read_ggml (bytes : List Nat) : Option Hyperparameters :=
  match decodeU32 bytes with
  | none => none
  | some (n_vocab, bytes) =>
    match decodeU32 bytes with
    | none => none
    | some (n_embd, bytes) =>
      match decodeU32 bytes with
      | none => none
      | some (n_head, bytes) =>
        match decodeU32 bytes with
        | none => none
        | some (n_layer, bytes) =>
          match decodeU32 bytes with
          | none => none
          | some (n_ctx, bytes) =>
            match decodeU32 bytes with
            | none => none
            | some (file_type, _) =>
              some ⟨n_vocab, n_embd, n_head, n_layer, n_ctx, file_type⟩

theorem decode_encode (n : Nat) (rest : List Nat) (h : n < 4294967296) :
    decodeU32 (encodeU32 n ++ rest) = some (n, rest) := by
  simp only [encodeU32, List.cons_append, List.nil_append, decodeU32]
  have harith :
      n % 256 + 256 * (n / 256 % 256) + 65536 * (n / 65536 % 256) +
        16777216 * (n / 16777216 % 256) = n := by omega
  rw [harith]

/-- C6: for every supported `Hyperparameters` value (all six fields in
`u32` range), writing with `write_ggml` and reading the bytes back with
`read_ggml` yields an equal value. -/
theorem C6_hyperparameters_round_trip (h : Hyperparameters)
    (h1 : h.n_vocab < 4294967296) (h2 : h.n_embd < 4294967296)
    (h3 : h.n_head < 4294967296) (h4 : h.n_layer < 4294967296)
    (h5 : h.n_ctx < 4294967296) (h6 : h.file_type < 4294967296) :
    Hyperparameters.read_ggml (Hyperparameters.write_ggml h) = some h := by
  simp only [Hyperparameters.write_ggml, Hyperparameters.read_ggml,
    decode_encode _ _ h1, decode_encode _ _ h2, decode_encode _ _ h3,
    decode_encode _ _ h4, decode_encode _ _ h5]
  rw [← List.append_nil (encodeU32 h.file_type),
    decode_encode _ _ h6]

/-- Witness for C6 at a concrete value (the GPT-NeoX smoke-test scale). -/
theorem C6_hyperparameters_round_trip_witness :
    Hyperparameters.read_ggml
        (Hyperparameters.write_ggml ⟨50304, 4096, 32, 16, 2048, 1⟩) =
      some ⟨50304, 4096, 32, 16, 2048, 1⟩ :=
  C6_hyperparameters_round_trip ⟨50304, 4096, 32, 16, 2048, 1⟩
    (by decide) (by decide) (by decide) (by decide) (by decide) (by decide)

/-! ## Session snapshot restore-or-create

The CLI's `snapshot` module is declared in
`binaries/llm-cli/src/main.rs` (`mod snapshot;`) but its file is not
under `src/`; `read_or_create_session` is modelled from §4.7 of the
spec.  `main.rs` passes the returned boolean as
`play_back_previous_tokens` (line 60). -/

/-- Modelled from the spec: the outcome of one snapshot restoration
attempt (`None` meaning no path was supplied). -/
inductive RestoreOutcome (S : Type) : Type where
  | success (s : S)
  | failure
deriving DecidableEq

/-- Modelled from the spec: `readOrCreate(persistedPath, explicitLoadPath)`
attempts restoration from the persisted path, then from the explicit
load path, and on any failure falls back to the fresh `Created` session
instead of propagating the error, reporting in the boolean whether a
restoration succeeded. -/
def read_or_create_session {S : Type} (fresh : S)
    (persisted explicitLoad : Option (RestoreOutcome S)) : S × Bool :=
  match persisted, explicitLoad with
  | some (.success s), _ => (s, true)
  | some .failure, some (.success s) => (s, true)
  | some .failure, _ => (fresh, false)
  | none, some (.success s) => (s, true)
  | none, _ => (fresh, false)

/-- C7: `read_or_create_session` is total over all restoration
outcomes — every failure falls back to the fresh session with `false`,
and every success returns the restored session with `true`; the boolean
reports exactly whether restoration succeeded. -/
theorem C7_read_or_create_session_fallback {S : Type} (fresh s : S) :
    read_or_create_session fresh none none = (fresh, false) ∧
    read_or_create_session fresh none (some .failure) = (fresh, false) ∧
    read_or_create_session fresh none (some (.success s)) = (s, true) ∧
    read_or_create_session fresh (some .failure) none = (fresh, false) ∧
    read_or_create_session fresh (some .failure) (some .failure) =
      (fresh, false) ∧
    read_or_create_session fresh (some .failure) (some (.success s)) =
      (s, true) ∧
    ∀ e, read_or_create_session fresh (some (.success s)) e = (s, true) := by
  refine ⟨rfl, rfl, rfl, rfl, rfl, rfl, ?_⟩
  intro e
  cases e with
  | none => rfl
  | some r => cases r <;> rfl

/-! ## CLI sampler construction (binaries/llm-cli/src/cli_args.rs)

`Generate::inference_parameters` is under `src/`.  `f32` constants here
are only stored, never computed with, and are embedded as rationals;
`self.num_threads()` consults the host CPU count and is abstracted as an
argument. -/

/-- `llm_base::TokenBias`: a sparse token-id → additive-bias list.
`TokenBias::default()` is the empty list. -/
structure TokenBias : Type where
  biases : List (Nat × ℚ)
deriving DecidableEq

/-- `TokenBias::default()`. -/
def TokenBias.default : TokenBias := ⟨[]⟩

/-- The `llm::samplers::TopPTopK` fields populated by
`inference_parameters`. -/
structure TopPTopK : Type where
  top_k : Nat
  top_p : ℚ
  repeat_penalty : ℚ
  temperature : ℚ
  bias_tokens : TokenBias
  repetition_penalty_last_n : Nat
deriving DecidableEq

/-- `llm::InferenceParameters` as built by `inference_parameters`. -/
structure InferenceParameters : Type where
  n_threads : Nat
  n_batch : Nat
  sampler : TopPTopK
deriving DecidableEq

/-- The fields of the `Generate` argument group that
`inference_parameters` reads. -/
structure Generate : Type where
  batch_size : Nat
  repeat_last_n : Nat
  repeat_penalty : ℚ
  temperature : ℚ
  top_k : Nat
  top_p : ℚ
  token_bias : Option TokenBias
  ignore_eos : Bool
deriving DecidableEq

/-- `Generate::inference_parameters(eot)` from
`binaries/llm-cli/src/cli_args.rs`: the sampler's `bias_tokens` is
`token_bias` when given, otherwise `{(eot, -1.0)}` when `ignore_eos`
is set, otherwise the default empty bias. -/
def Generate.inference_parameters (g : Generate) (n_threads eot : Nat) :
    InferenceParameters :=
  { n_threads := n_threads
    n_batch := g.batch_size
    sampler :=
      { top_k := g.top_k
        top_p := g.top_p
        repeat_penalty := g.repeat_penalty
        temperature := g.temperature
        bias_tokens :=
          g.token_bias.getD
            (if g.ignore_eos then ⟨[(eot, -1)]⟩ else TokenBias.default)
        repetition_penalty_last_n := g.repeat_last_n } }

/-- C8: the EOS-suppression bias is installed exactly when configured
and no explicit bias is given: an explicit `token_bias` wins regardless
of `ignore_eos`; otherwise `ignore_eos` yields `{(eot, -1.0)}`; and
otherwise the bias list is empty. -/
theorem C8_inference_parameters_bias (g : Generate) (nt eot : Nat) :
    (∀ b, g.token_bias = some b →
      (g.inference_parameters nt eot).sampler.bias_tokens = b) ∧
    (g.token_bias = none → g.ignore_eos = true →
      (g.inference_parameters nt eot).sampler.bias_tokens = ⟨[(eot, -1)]⟩) ∧
    (g.token_bias = none → g.ignore_eos = false →
      (g.inference_parameters nt eot).sampler.bias_tokens =
        TokenBias.default) := by
  refine ⟨?_, ?_, ?_⟩
  · intro b hb
    simp [Generate.inference_parameters, hb]
  · intro hb hi
    simp [Generate.inference_parameters, hb, hi]
  · intro hb hi
    simp [Generate.inference_parameters, hb, hi]

/-- Witness for C8 at concrete inputs: the three bias cases with the
CLI's default numeric settings. -/
theorem C8_inference_parameters_bias_witness :
    ((Generate.mk 8 64 (13/10) (4/5) 40 (19/20)
        (some ⟨[(1, -1), (2, -1)]⟩) false).inference_parameters 4 2
      ).sampler.bias_tokens = ⟨[(1, -1), (2, -1)]⟩ ∧
    ((Generate.mk 8 64 (13/10) (4/5) 40 (19/20) none true).inference_parameters
        4 2).sampler.bias_tokens = ⟨[(2, -1)]⟩ ∧
    ((Generate.mk 8 64 (13/10) (4/5) 40 (19/20) none false).inference_parameters
        4 2).sampler.bias_tokens = TokenBias.default :=
  ⟨(C8_inference_parameters_bias _ 4 2).1 ⟨[(1, -1), (2, -1)]⟩ rfl,
   (C8_inference_parameters_bias _ 4 2).2.1 rfl rfl,
   (C8_inference_parameters_bias _ 4 2).2.2 rfl rfl⟩

end Llm
